import Mathlib

/-!
Verification of the konstruct source-resolution and synchronization engine.

The TypeScript sources are shallowly embedded: strings are modelled as
`List Char` (called `Str` below) so that prefix/suffix/infix reasoning is
by structural induction; fallible operations return `Except`; filesystem
trees are inductive values; the I/O outcomes of the engine's collaborators
(clone, discover, apply) are passed to the orchestrator as explicit
`Except`-valued inputs, mirroring the `await`ed calls in the code.
-/

namespace Konstruct

/-- Strings, modelled as lists of characters. -/
abbrev Str := List Char

-- ---------------------------------------------------------------------------
-- Generic string helpers
-- ---------------------------------------------------------------------------

/-- Drop `p` from the front of `l`; `some rest` exactly when `p` is a prefix
of `l` and `l = p ++ rest`.  Models JavaScript `startsWith` + `slice`. -/
def dropPre : Str → Str → Option Str
  | [], l => some l
  | _ :: _, [] => none
  | p :: ps, c :: cs => if p = c then dropPre ps cs else none

theorem dropPre_eq_some_iff : ∀ (p l r : Str), dropPre p l = some r ↔ l = p ++ r
  | [], l, r => by simp [dropPre]
  | _ :: _, [], r => by simp [dropPre]
  | p :: ps, c :: cs, r => by
    simp only [dropPre, List.cons_append]
    by_cases h : p = c
    · subst h
      simp [dropPre_eq_some_iff ps cs r]
    · simp [h]
      intro hc
      exact absurd hc.symm h

theorem dropPre_append (p s : Str) : dropPre p (p ++ s) = some s :=
  (dropPre_eq_some_iff p (p ++ s) s).mpr rfl

theorem dropPre_eq_none_of_not_isPre {p l : Str} (h : ¬ p <+: l) :
    dropPre p l = none := by
  cases hd : dropPre p l with
  | none => rfl
  | some r =>
    exact absurd ⟨r, ((dropPre_eq_some_iff p l r).mp hd).symm⟩ h

-- ---------------------------------------------------------------------------
-- git.ts : httpsToSshUrl
-- ---------------------------------------------------------------------------

/-- Whether a character is matched by an (unflagged) JavaScript regex dot:
everything except line terminators. -/
def dotMatches (c : Char) : Bool :=
  c ≠ '\n' && c ≠ '\r' && c ≠ '\u2028' && c ≠ '\u2029'

/-- Embedding of `httpsToSshUrl` (git.ts).  The source matches the URL against
the regex `^https:\/\/(github\.com|gitlab\.com)\/(.+)$` and, on success,
produces `git@<host>:<rest>` where `<rest>` is the captured remainder,
verbatim.  `(.+)$` requires a non-empty remainder with no line terminators. -/
def httpsToSshUrl (url : Str) : Option Str :=
  match dropPre "https://github.com/".data url with
  | some rest =>
    if rest ≠ [] ∧ rest.all dotMatches then some ("git@github.com:".data ++ rest) else none
  | none =>
    match dropPre "https://gitlab.com/".data url with
    | some rest =>
      if rest ≠ [] ∧ rest.all dotMatches then some ("git@gitlab.com:".data ++ rest) else none
    | none => none

/-- C3 counterexample: the claim says the converted URL always carries a
`.git` suffix, but `httpsToSshUrl` preserves the path verbatim: converting
`https://github.com/a/b` yields `git@github.com:a/b`, not
`git@github.com:a/b.git`. -/
theorem claim3_counterexample :
    httpsToSshUrl "https://github.com/a/b".data = some "git@github.com:a/b".data ∧
    httpsToSshUrl "https://github.com/a/b".data ≠ some "git@github.com:a/b.git".data := by
  constructor
  · rfl
  · decide

/-- C3 amended: for a non-empty dot-matchable remainder `rest`,
`https://github.com/<rest>` converts to `git@github.com:<rest>` and
`https://gitlab.com/<rest>` converts to `git@gitlab.com:<rest>` — the path is
preserved verbatim, so the output ends in `.git` exactly when the input does;
and any URL that does not start with `https://github.com/` or
`https://gitlab.com/` (in particular `git@...` and `ssh://...` URLs) produces
no conversion. -/
theorem claim3_amended (rest url : Str) (hne : rest ≠ [])
    (hdot : rest.all dotMatches = true)
    (hng : ¬ ("https://github.com/".data <+: url))
    (hnl : ¬ ("https://gitlab.com/".data <+: url)) :
    httpsToSshUrl ("https://github.com/".data ++ rest) =
      some ("git@github.com:".data ++ rest) ∧
    httpsToSshUrl ("https://gitlab.com/".data ++ rest) =
      some ("git@gitlab.com:".data ++ rest) ∧
    httpsToSshUrl url = none := by
  refine ⟨?_, ?_, ?_⟩
  · unfold httpsToSshUrl
    rw [dropPre_append]
    exact if_pos ⟨hne, hdot⟩
  · have hgh : dropPre "https://github.com/".data ("https://gitlab.com/".data ++ rest) = none := rfl
    unfold httpsToSshUrl
    rw [hgh, dropPre_append]
    exact if_pos ⟨hne, hdot⟩
  · have h1 : dropPre "https://github.com/".data url = none := dropPre_eq_none_of_not_isPre hng
    have h2 : dropPre "https://gitlab.com/".data url = none := dropPre_eq_none_of_not_isPre hnl
    unfold httpsToSshUrl
    rw [h1, h2]

/-- Witness for the amended C3 theorem at concrete inputs. -/
theorem claim3_amended_witness :
    ("a/b".data ≠ [] ∧ "a/b".data.all dotMatches = true ∧
      ¬ ("https://github.com/".data <+: "git@github.com:a/b.git".data) ∧
      ¬ ("https://gitlab.com/".data <+: "git@github.com:a/b.git".data)) ∧
    (httpsToSshUrl ("https://github.com/".data ++ "a/b".data) =
        some ("git@github.com:".data ++ "a/b".data) ∧
      httpsToSshUrl ("https://gitlab.com/".data ++ "a/b".data) =
        some ("git@gitlab.com:".data ++ "a/b".data) ∧
      httpsToSshUrl "git@github.com:a/b.git".data = none) :=
  ⟨⟨by decide, by decide, by decide, by decide⟩,
    claim3_amended "a/b".data "git@github.com:a/b.git".data (by decide) (by decide)
      (by decide) (by decide)⟩

-- ---------------------------------------------------------------------------
-- parse.ts : source locator parser
-- ---------------------------------------------------------------------------

/-- The four source kinds of `SkillSource.type`. -/
inductive SourceType
  | github
  | gitlab
  | git
  | file
deriving DecidableEq, Repr

/-- Embedding of the `SkillSource` interface (types/index.ts). -/
structure SkillSource where
  type : SourceType
  url : Str
  ref : Option Str := none
  subpath : Option Str := none
deriving DecidableEq, Repr

/-- Errors thrown by the parser, tagged by throw site: `unknownFormat` is the
invalid-source-format error whose message enumerates the supported prefixes;
`ownerRepoExpected` is the "expected at least owner/repo" error thrown by
`parseGitHub` (for github) and `parseGenericGit` (for gitlab). -/
inductive ParseErr
  | unknownFormat
  | ownerRepoExpected (host : SourceType)
deriving DecidableEq, Repr

/-- Embedding of `splitRef` (parse.ts): split at the LAST '#'; an empty ref
after '#' is normalized to `none`. -/
def splitRef (input : Str) : Str × Option Str :=
  if '#' ∈ input then
    let base := ((input.reverse.dropWhile (· ≠ '#')).tail).reverse
    let ref := (input.reverse.takeWhile (· ≠ '#')).reverse
    (base, if ref = [] then none else some ref)
  else (input, none)

/-- Strip one trailing ".git", modelling `repo.replace` with the anchored
regex matching a final ".git". -/
def stripDotGit (l : Str) : Str :=
  if ".git".data <:+ l then l.take (l.length - 4) else l

/-- Join path segments with a separator, modelling `Array.prototype.join`. -/
def joinWith (sep : Str) : List Str → Str
  | [] => []
  | [x] => x
  | x :: y :: rest => x ++ sep ++ joinWith sep (y :: rest)

/-- Embedding of `parseGitHub` (parse.ts). -/
def parseGitHub (input : Str) : Except ParseErr SkillSource :=
  let (base, ref) := splitRef input
  match base.splitOn '/' with
  | owner :: repoSeg :: rest =>
    Except.ok
      { type := SourceType.github
        url := "https://github.com/".data ++ owner ++ "/".data ++
          stripDotGit repoSeg ++ ".git".data
        ref := ref
        subpath := if rest = [] then none else some (joinWith "/".data rest) }
  | _ => Except.error (ParseErr.ownerRepoExpected SourceType.github)

/-- Embedding of `parseGenericGit` (parse.ts), covering the gitlab: and git:
forms. -/
def parseGenericGit (t : SourceType) (input : Str) : Except ParseErr SkillSource :=
  let (base, ref) := splitRef input
  if t = SourceType.git then
    Except.ok
      { type := SourceType.git
        url := if ".git".data <:+ base then base else base ++ ".git".data
        ref := ref }
  else
    match base.splitOn '/' with
    | owner :: repoSeg :: rest =>
      Except.ok
        { type := SourceType.gitlab
          url := "https://gitlab.com/".data ++ owner ++ "/".data ++
            stripDotGit repoSeg ++ ".git".data
          ref := ref
          subpath := if rest = [] then none else some (joinWith "/".data rest) }
    | _ => Except.error (ParseErr.ownerRepoExpected SourceType.gitlab)

/-- Embedding of `parseSource` (parse.ts): prefix dispatch in source order,
then the bare GitHub shorthand for prefix-free strings that contain a '/'
but no '://', and otherwise the unknown-source-format error. -/
def parseSource (source : Str) : Except ParseErr SkillSource :=
  match dropPre "github:".data source with
  | some rest => parseGitHub rest
  | none =>
  match dropPre "gitlab:".data source with
  | some rest => parseGenericGit SourceType.gitlab rest
  | none =>
  match dropPre "git:".data source with
  | some rest => parseGenericGit SourceType.git rest
  | none =>
  match dropPre "file:".data source with
  | some rest => Except.ok { type := SourceType.file, url := rest }
  | none =>
    if ¬ ("://".data <:+: source) ∧ '/' ∈ source then parseGitHub source
    else Except.error ParseErr.unknownFormat

instance {ε α : Type} [DecidableEq ε] [DecidableEq α] : DecidableEq (Except ε α) := fun
  | Except.ok a, Except.ok b =>
    if h : a = b then Decidable.isTrue (by rw [h])
    else Decidable.isFalse (by intro hh; cases hh; exact h rfl)
  | Except.ok _, Except.error _ => Decidable.isFalse (by intro h; cases h)
  | Except.error _, Except.ok _ => Decidable.isFalse (by intro h; cases h)
  | Except.error a, Except.error b =>
    if h : a = b then Decidable.isTrue (by rw [h])
    else Decidable.isFalse (by intro hh; cases hh; exact h rfl)

/-- C6 counterexample: the claim quantifies over EVERY string without '://',
but strings carrying a recognized prefix break both halves. First,
`file:./a/b` contains a '/' and no '://', yet parses as a file source, not
as `github:file:./a/b` would. Second, `file:abc` contains no '/' and no
'://', yet parses successfully instead of failing with the
invalid-source-format error. -/
theorem claim6_counterexample :
    ('/' ∈ "file:./a/b".data ∧ ¬ ("://".data <:+: "file:./a/b".data) ∧
      parseSource "file:./a/b".data ≠
        parseSource ("github:".data ++ "file:./a/b".data)) ∧
    ('/' ∉ "file:abc".data ∧ ¬ ("://".data <:+: "file:abc".data) ∧
      parseSource "file:abc".data =
        Except.ok { type := SourceType.file, url := "abc".data } ∧
      parseSource "file:abc".data ≠ Except.error ParseErr.unknownFormat) := by
  refine ⟨⟨by decide, by decide, by decide⟩, ⟨by decide, by decide, rfl, by decide⟩⟩

/-- C6 amended: for every input string that carries none of the four
recognized prefixes (github:, gitlab:, git:, file:) and contains no '://':
if it contains at least one '/', parse returns the same structured reference
as parsing the same text with the github: prefix prepended; and if it
contains no '/', parse fails with the invalid-source-format error. -/
theorem claim6_amended (s : Str)
    (h1 : ¬ ("github:".data <+: s)) (h2 : ¬ ("gitlab:".data <+: s))
    (h3 : ¬ ("git:".data <+: s)) (h4 : ¬ ("file:".data <+: s))
    (h5 : ¬ ("://".data <:+: s)) :
    ('/' ∈ s → parseSource s = parseSource ("github:".data ++ s)) ∧
    ('/' ∉ s → parseSource s = Except.error ParseErr.unknownFormat) := by
  have d1 := dropPre_eq_none_of_not_isPre h1
  have d2 := dropPre_eq_none_of_not_isPre h2
  have d3 := dropPre_eq_none_of_not_isPre h3
  have d4 := dropPre_eq_none_of_not_isPre h4
  have hpre : parseSource ("github:".data ++ s) = parseGitHub s := by
    unfold parseSource
    rw [dropPre_append]
  constructor
  · intro hs
    rw [hpre]
    unfold parseSource
    rw [d1, d2, d3, d4]
    exact if_pos ⟨h5, hs⟩
  · intro hs
    unfold parseSource
    rw [d1, d2, d3, d4]
    exact if_neg (fun h => hs h.2)

/-- Witness for the amended C6 theorem at the concrete shorthand a/b. -/
theorem claim6_amended_witness :
    (¬ ("github:".data <+: "a/b".data) ∧ ¬ ("gitlab:".data <+: "a/b".data) ∧
      ¬ ("git:".data <+: "a/b".data) ∧ ¬ ("file:".data <+: "a/b".data) ∧
      ¬ ("://".data <:+: "a/b".data) ∧ '/' ∈ "a/b".data) ∧
    parseSource "a/b".data = parseSource ("github:".data ++ "a/b".data) :=
  ⟨⟨by decide, by decide, by decide, by decide, by decide, by decide⟩,
    (claim6_amended "a/b".data (by decide) (by decide) (by decide) (by decide)
      (by decide)).1 (by decide)⟩

-- ---------------------------------------------------------------------------
-- discover.ts : findSkillFiles
-- ---------------------------------------------------------------------------

/-- A filesystem tree as seen by `readdir` with file types: each entry is a
plain file or a directory with its own entries. -/
inductive FsEntry
  | file (name : Str)
  | dir (name : Str) (children : List FsEntry)

/-- Whether discovery skips this entry: `name.startsWith('.') ||
name.startsWith('_')`. -/
def prunedName : Str → Bool
  | [] => false
  | c :: _ => c == '.' || c == '_'

/-- Marker filename test: `entry.name.toLowerCase() === 'skill.md'`. -/
def isSkillFilename (n : Str) : Bool :=
  n.map Char.toLower == "skill.md".data

/-- Embedding of `findSkillFiles` (discover.ts): recursive descent collecting
the (relative) paths of marker files, pruning entries whose name starts with
'.' or '_', and reading no directory at depth greater than `MAX_DEPTH = 3`.
The search root is read at depth 0. -/
def findSkillFiles (depth : Nat) (entries : List FsEntry) : List (List Str) :=
  if depth > 3 then []
  else
    match entries with
    | [] => []
    | FsEntry.file n :: rest =>
      (if prunedName n then [] else if isSkillFilename n then [[n]] else [])
        ++ findSkillFiles depth rest
    | FsEntry.dir n cs :: rest =>
      (if prunedName n then [] else (findSkillFiles (depth + 1) cs).map (n :: ·))
        ++ findSkillFiles depth rest
termination_by sizeOf entries

/-- The per-entry contribution of one loop iteration of `findSkillFiles`. -/
def entryContrib (depth : Nat) : FsEntry → List (List Str)
  | FsEntry.file n => if prunedName n then [] else if isSkillFilename n then [[n]] else []
  | FsEntry.dir n cs =>
    if prunedName n then [] else (findSkillFiles (depth + 1) cs).map (n :: ·)

theorem findSkillFiles_eq (depth : Nat) (h : depth ≤ 3) :
    ∀ entries : List FsEntry,
      findSkillFiles depth entries = entries.flatMap (entryContrib depth)
  | [] => by
    rw [findSkillFiles, if_neg (Nat.not_lt.mpr h)]
    rfl
  | FsEntry.file n :: rest => by
    rw [findSkillFiles, if_neg (Nat.not_lt.mpr h)]
    rw [List.flatMap_cons, ← findSkillFiles_eq depth h rest]
    rfl
  | FsEntry.dir n cs :: rest => by
    rw [findSkillFiles, if_neg (Nat.not_lt.mpr h)]
    rw [List.flatMap_cons, ← findSkillFiles_eq depth h rest]
    rfl

/-- Existence of a marker file at a given path in the tree: the path is a
chain of directory names ending in a file whose lowercased name is skill.md. -/
def hasMarkerAt : List FsEntry → List Str → Bool
  | _, [] => false
  | entries, [n] =>
    entries.any fun e =>
      match e with
      | FsEntry.file m => m == n && isSkillFilename m
      | FsEntry.dir _ _ => false
  | entries, d :: e0 :: rest =>
    entries.any fun e =>
      match e with
      | FsEntry.file _ => false
      | FsEntry.dir m cs => m == d && hasMarkerAt cs (e0 :: rest)

/-- Soundness half of C4: every path returned by discovery has only
non-pruned components (induction on the remaining depth budget). -/
theorem findSkillFiles_components_not_pruned :
    ∀ (k depth : Nat), 4 - depth ≤ k → ∀ (entries : List FsEntry) (p : List Str),
      p ∈ findSkillFiles depth entries → ∀ c ∈ p, prunedName c = false := by
  intro k
  induction k with
  | zero =>
    intro depth hk entries p hp
    have hd : depth > 3 := by omega
    rw [findSkillFiles.eq_def, if_pos hd] at hp
    cases hp
  | succ k ih =>
    intro depth hk entries p hp c hc
    by_cases hd : depth > 3
    · rw [findSkillFiles.eq_def, if_pos hd] at hp
      cases hp
    · have hd3 : depth ≤ 3 := by omega
      rw [findSkillFiles_eq depth hd3] at hp
      rcases List.mem_flatMap.mp hp with ⟨e, _, hpe⟩
      cases e with
      | file n =>
        by_cases hpr : prunedName n = true
        · simp [entryContrib, hpr] at hpe
        · by_cases hsk : isSkillFilename n = true
          · rw [Bool.not_eq_true] at hpr
            simp [entryContrib, hpr, hsk] at hpe
            subst hpe
            rcases List.mem_singleton.mp hc with rfl
            exact hpr
          · rw [Bool.not_eq_true] at hpr hsk
            simp [entryContrib, hpr, hsk] at hpe
      | dir n cs =>
        by_cases hpr : prunedName n = true
        · simp [entryContrib, hpr] at hpe
        · rw [Bool.not_eq_true] at hpr
          simp [entryContrib, hpr] at hpe
          rcases hpe with ⟨q, hq, rfl⟩
          rcases List.mem_cons.mp hc with rfl | hc2
          · exact hpr
          · exact ih (depth + 1) (by omega) cs q hq c hc2

/-- Completeness half of C4: a marker at a non-pruned path read at depth
`depth` with `depth + p.length ≤ 4` is found (structural induction on the
path). -/
theorem marker_mem_findSkillFiles :
    ∀ (p : List Str) (entries : List FsEntry) (depth : Nat),
      hasMarkerAt entries p = true → depth + p.length ≤ 4 →
      (∀ c ∈ p, prunedName c = false) → p ∈ findSkillFiles depth entries
  | [], _, _ => by
    intro h _ _
    rw [hasMarkerAt] at h
    cases h
  | [n], entries, depth => by
    intro h hd hc
    have hdepth : depth ≤ 3 := by simp at hd; omega
    rw [findSkillFiles_eq depth hdepth]
    rw [hasMarkerAt] at h
    rcases List.any_eq_true.mp h with ⟨e, he, hfe⟩
    cases e with
    | file m =>
      have h12 : m = n ∧ isSkillFilename m = true := by simpa using hfe
      rcases h12 with ⟨hmn, h2⟩
      subst hmn
      have hnp : prunedName m = false := hc m (List.mem_singleton.mpr rfl)
      exact List.mem_flatMap.mpr ⟨FsEntry.file m, he, by simp [entryContrib, hnp, h2]⟩
    | dir m cs => cases hfe
  | d :: e0 :: rest, entries, depth => by
    intro h hd hc
    have hdepth : depth ≤ 3 := by simp at hd; omega
    rw [findSkillFiles_eq depth hdepth]
    rw [hasMarkerAt] at h
    rcases List.any_eq_true.mp h with ⟨en, hen, hfe⟩
    cases en with
    | file m => cases hfe
    | dir m cs =>
      have h12 : m = d ∧ hasMarkerAt cs (e0 :: rest) = true := by simpa using hfe
      rcases h12 with ⟨hmd, h2⟩
      subst hmd
      have hnp : prunedName m = false := hc m (List.mem_cons_self m _)
      have hrec : (e0 :: rest) ∈ findSkillFiles (depth + 1) cs :=
        marker_mem_findSkillFiles (e0 :: rest) cs (depth + 1) h2
          (by simp at hd ⊢; omega)
          (fun c hcc => hc c (List.mem_cons_of_mem _ hcc))
      refine List.mem_flatMap.mpr ⟨FsEntry.dir m cs, hen, ?_⟩
      simp only [entryContrib, hnp, Bool.false_eq_true, if_false, List.mem_map]
      exact ⟨e0 :: rest, hrec, rfl⟩

/-- C4: unit discovery never returns a path containing a component whose name
starts with '.' or '_' (such directories are pruned, not descended into); and
every valid marker file whose path avoids pruned components and lies at most
3 directory levels below the search root (path length at most 4 counting the
marker filename) is returned. -/
theorem claim4_discovery_prune_and_depth (entries : List FsEntry) (p : List Str) :
    (p ∈ findSkillFiles 0 entries → ∀ c ∈ p, prunedName c = false) ∧
    (hasMarkerAt entries p = true → p.length ≤ 4 →
      (∀ c ∈ p, prunedName c = false) → p ∈ findSkillFiles 0 entries) :=
  ⟨fun hp => findSkillFiles_components_not_pruned 4 0 (by omega) entries p hp,
   fun h hl hc => marker_mem_findSkillFiles p entries 0 h (by omega) hc⟩

/-- Sample tree for the C4 witness: a marker nested 3 directory levels deep. -/
def demoTree : List FsEntry :=
  [FsEntry.dir "a".data
    [FsEntry.dir "b".data
      [FsEntry.dir "c".data [FsEntry.file "SKILL.md".data]]]]

/-- Sample path for the C4 witness. -/
def demoPath : List Str := ["a".data, "b".data, "c".data, "SKILL.md".data]

/-- Witness for C4 at a concrete tree with a marker 3 levels deep. -/
theorem claim4_witness :
    (hasMarkerAt demoTree demoPath = true ∧ demoPath.length ≤ 4 ∧
      (∀ c ∈ demoPath, prunedName c = false)) ∧
    demoPath ∈ findSkillFiles 0 demoTree :=
  ⟨⟨by decide, by decide, by decide⟩,
    (claim4_discovery_prune_and_depth demoTree demoPath).2 (by decide) (by decide)
      (by decide)⟩

-- ---------------------------------------------------------------------------
-- merge.ts : deepMerge
-- ---------------------------------------------------------------------------

/-- JSON-like values, as produced by JSON.parse (numbers restricted to the
integers used by the engine's fixtures). -/
inductive Json
  | null
  | bool (b : Bool)
  | num (n : Int)
  | str (s : String)
  | arr (items : List Json)
  | obj (fields : List (String × Json))

/-- Escaping of one character inside a JSON string literal. -/
def escapeJsonChar (c : Char) : List Char :=
  if c = '"' then ['\\', '"']
  else if c = '\\' then ['\\', '\\']
  else if c = '\n' then ['\\', 'n']
  else if c = '\r' then ['\\', 'r']
  else if c = '\t' then ['\\', 't']
  else [c]

/-- A JSON string literal: quotes around the escaped body. -/
def quoteJson (s : String) : String :=
  String.mk ('"' :: (s.data.flatMap escapeJsonChar ++ ['"']))

mutual

/-- Compact serialization in the style of JSON.stringify, used by the
array-dedup step of the merge for keying objects and arrays. -/
def stringify : Json → String
  | Json.null => "null"
  | Json.bool true => "true"
  | Json.bool false => "false"
  | Json.num n => toString n
  | Json.str s => quoteJson s
  | Json.arr items => "[" ++ stringifyItems items ++ "]"
  | Json.obj fields => "\x7b" ++ stringifyFields fields ++ "\x7d"

/-- Comma-joined serialization of array items. -/
def stringifyItems : List Json → String
  | [] => ""
  | [x] => stringify x
  | x :: y :: rest => stringify x ++ "," ++ stringifyItems (y :: rest)

/-- Comma-joined serialization of object fields. -/
def stringifyFields : List (String × Json) → String
  | [] => ""
  | [(k, v)] => quoteJson k ++ ":" ++ stringify v
  | (k, v) :: y :: rest => quoteJson k ++ ":" ++ stringify v ++ "," ++ stringifyFields (y :: rest)

end

/-- Keys of the `seen` set in the dedup loop: a JavaScript Set holds the
JSON.stringify text for objects and arrays, and the primitive value itself
otherwise (so a primitive string collides with a serialization text, exactly
as in the source). -/
inductive JKey
  | nullk
  | boolk (b : Bool)
  | numk (n : Int)
  | strk (s : String)
deriving DecidableEq

/-- The dedup key of one array item: `typeof item === 'object' && item !==
null ? JSON.stringify(item) : item`. -/
def dedupKey : Json → JKey
  | Json.obj fs => JKey.strk (stringify (Json.obj fs))
  | Json.arr xs => JKey.strk (stringify (Json.arr xs))
  | Json.str s => JKey.strk s
  | Json.num n => JKey.numk n
  | Json.bool b => JKey.boolk b
  | Json.null => JKey.nullk

/-- The dedup loop of the array branch: keep the first occurrence of each
dedup key, in order. -/
def dedupLoop : List Json → List JKey → List Json
  | [], _ => []
  | x :: xs, seen =>
    if dedupKey x ∈ seen then dedupLoop xs seen
    else x :: dedupLoop xs (dedupKey x :: seen)

/-- Array merge: concatenate then de-duplicate. -/
def mergeArrays (tgt src : List Json) : List Json :=
  dedupLoop (tgt ++ src) []

/-- Property read on a JavaScript object, modelled as first-match lookup on
the (duplicate-free) field list. -/
def lookupAssoc {β : Type} : List (String × β) → String → Option β
  | [], _ => none
  | (k0, v) :: rest, k => if k0 = k then some v else lookupAssoc rest k

/-- Property write on a JavaScript object: replace in place if the key
exists, otherwise append (insertion order preserved). -/
def setKey {β : Type} : List (String × β) → String → β → List (String × β)
  | [], k, v => [(k, v)]
  | (k0, v0) :: rest, k, v =>
    if k0 = k then (k, v) :: rest else (k0, v0) :: setKey rest k v

mutual

/-- The merged value for one key: the if/else-if/else chain of the loop
body — both arrays: concatenate and de-duplicate; both plain objects:
recursive merge; otherwise the source value. -/
def mergeVal : Option Json → Json → Json
  | some (Json.arr tgtItems), Json.arr srcItems =>
    Json.arr (mergeArrays tgtItems srcItems)
  | some (Json.obj tgtFields), Json.obj srcFields =>
    Json.obj (deepMerge tgtFields srcFields)
  | _, sv => sv
termination_by _o sv => sizeOf sv

/-- Embedding of `deepMerge` (merge.ts): iteration over the source object's
keys, updating the accumulated result in place (the code mutates `result`,
so later keys see earlier writes; JavaScript objects have no duplicate
keys).  The `srcVal === undefined` guard in the code cannot fire on
JSON-parsed data and has no counterpart here. -/
def deepMerge : List (String × Json) → List (String × Json) → List (String × Json)
  | t, [] => t
  | t, (k, sv) :: rest =>
    deepMerge (setKey t k (mergeVal (lookupAssoc t k) sv)) rest
termination_by _t s => sizeOf s

end

/-- The existing target object of the C5 example. -/
def c5Existing : List (String × Json) :=
  [("a", Json.arr [Json.num 1, Json.num 2]), ("b", Json.obj [("x", Json.num 1)])]

/-- The source object of the C5 example. -/
def c5Source : List (String × Json) :=
  [("a", Json.arr [Json.num 2, Json.num 3]), ("b", Json.obj [("y", Json.num 2)]),
   ("c", Json.num 5)]

/-- C5: deep-merging the example objects yields exactly the claimed result —
the arrays concatenate then de-duplicate, the nested objects merge
key-by-key, and the fresh scalar is appended with the source's value. -/
theorem claim5_deepMerge_example :
    deepMerge c5Existing c5Source =
      [("a", Json.arr [Json.num 1, Json.num 2, Json.num 3]),
       ("b", Json.obj [("x", Json.num 1), ("y", Json.num 2)]),
       ("c", Json.num 5)] := by
  simp [c5Existing, c5Source, deepMerge, mergeVal, lookupAssoc, setKey,
    mergeArrays, dedupLoop, dedupKey]

-- ---------------------------------------------------------------------------
-- utils/fs.ts : hashDirectory and diffHashes
-- ---------------------------------------------------------------------------

/-- A filesystem node as seen by the hashing walk: a regular file carries
the digest of its content; a directory carries a readability flag (false
models a `readdir` failure, which the walk swallows) and its entries. -/
inductive FsNode
  | file (name : String) (hash : String)
  | dir (name : String) (readable : Bool) (children : List FsNode)

/-- Embedding of `walkAndHash` (utils/fs.ts): walk the entries of one
directory, hashing files and descending into subdirectories; an unreadable
directory contributes nothing. -/
def walkAndHash : List FsNode → List (List String × String)
  | [] => []
  | FsNode.file n h :: rest => ([n], h) :: walkAndHash rest
  | FsNode.dir n r cs :: rest =>
    (if r then (walkAndHash cs).map (fun q => (n :: q.1, q.2)) else [])
      ++ walkAndHash rest
termination_by es => sizeOf es

/-- Embedding of `hashDirectory` (utils/fs.ts): the argument models what the
filesystem holds at dirPath — `none` when the path does not exist, otherwise
the directory's readability flag and entries.  A missing or unreadable root
yields the empty map because the walk's `readdir` fails and is caught. -/
def hashDirectory : Option (Bool × List FsNode) → List (List String × String)
  | none => []
  | some (false, _) => []
  | some (true, es) => walkAndHash es

/-- C7: fingerprinting a non-existent or unreadable directory returns an
empty hash map rather than an error, so "not yet installed" is the empty
local map. -/
theorem claim7_hashDirectory_missing_empty (es : List FsNode) :
    hashDirectory none = [] ∧ hashDirectory (some (false, es)) = [] :=
  ⟨rfl, rfl⟩

/-- The diff of two directory hash maps (added/removed/changed file paths). -/
structure DirDiff where
  added : List String
  removed : List String
  changed : List String
deriving DecidableEq, Repr

/-- Embedding of `diffHashes` (utils/fs.ts): `added` and `changed` come from
the loop over `remote` (absent from local, respectively present with a
different hash), `removed` from the loop over `local` (absent from remote). -/
def diffHashes (localMap remoteMap : List (String × String)) : DirDiff :=
  { added := (remoteMap.filter fun p => (lookupAssoc localMap p.1).isNone).map Prod.fst
    changed := (remoteMap.filter fun p =>
        match lookupAssoc localMap p.1 with
        | some h => decide (h ≠ p.2)
        | none => false).map Prod.fst
    removed := (localMap.filter fun p => (lookupAssoc remoteMap p.1).isNone).map Prod.fst }

theorem lookupAssoc_eq_some_of_mem {β : Type} [DecidableEq β] :
    ∀ (m : List (String × β)) (k : String) (v : β),
      (m.map Prod.fst).Nodup → (k, v) ∈ m → lookupAssoc m k = some v
  | [], k, v => by intro _ hm; cases hm
  | (k0, v0) :: rest, k, v => by
    intro hnd hm
    rcases List.mem_cons.mp hm with heq | hmem
    · cases heq
      simp [lookupAssoc]
    · have hk : k0 ≠ k := by
        intro hkk
        subst hkk
        have : k0 ∈ rest.map Prod.fst := List.mem_map.mpr ⟨(k0, v), hmem, rfl⟩
        exact (List.nodup_cons.mp (by simpa using hnd)).1 this
      rw [lookupAssoc, if_neg hk]
      exact lookupAssoc_eq_some_of_mem rest k v (List.nodup_cons.mp (by simpa using hnd)).2 hmem

/-- C8: diffing a hash map against itself yields empty added, removed and
changed sets (hash maps have duplicate-free keys). -/
theorem claim8_diff_self_empty (X : List (String × String))
    (hnd : (X.map Prod.fst).Nodup) :
    diffHashes X X = { added := [], removed := [], changed := [] } := by
  have hsome : ∀ p ∈ X, lookupAssoc X p.1 = some p.2 := by
    intro p hp
    exact lookupAssoc_eq_some_of_mem X p.1 p.2 hnd hp
  have hadded : (X.filter fun p => (lookupAssoc X p.1).isNone) = [] := by
    rw [List.filter_eq_nil_iff]
    intro p hp
    rw [hsome p hp]
    simp
  have hchanged : (X.filter fun p =>
      match lookupAssoc X p.1 with
      | some h => decide (h ≠ p.2)
      | none => false) = [] := by
    rw [List.filter_eq_nil_iff]
    intro p hp
    rw [hsome p hp]
    simp
  rw [diffHashes, hadded, hchanged]
  simp

/-- Witness for C8 at a concrete one-entry hash map. -/
theorem claim8_witness :
    ((([("f", "h1")] : List (String × String)).map Prod.fst).Nodup) ∧
    diffHashes [("f", "h1")] [("f", "h1")] = { added := [], removed := [], changed := [] } :=
  ⟨by decide, claim8_diff_self_empty [("f", "h1")] (by decide)⟩

-- ---------------------------------------------------------------------------
-- git.ts : cleanupTempDir
-- ---------------------------------------------------------------------------

/-- Whether the resolved directory lies inside the resolved system temp
root: equal to it, or strictly below it (temp root plus path separator is a
prefix of the resolved directory). -/
def insideTmpRoot (realpath : Str → Str) (tmpRoot : Str) (sep : Char) (dir : Str) : Prop :=
  realpath dir = realpath tmpRoot ∨ (realpath tmpRoot ++ [sep]) <+: realpath dir

/-- Embedding of `cleanupTempDir` (git.ts): resolve the directory and the
system temp root through realpath; throw unless the resolved directory
starts with the resolved temp root plus separator or equals it; otherwise
remove the directory.  The `Except.ok` value is the path handed to `rm`. -/
def cleanupTempDir (realpath : Str → Str) (tmpRoot : Str) (sep : Char) (dir : Str) :
    Except String Str :=
  if ¬ ((realpath tmpRoot ++ [sep]) <+: realpath dir) ∧ realpath dir ≠ realpath tmpRoot then
    Except.error "Attempted to clean up a directory outside of the system temp directory"
  else Except.ok dir

/-- C9: the release operation refuses (throws, deleting nothing) whenever
the path does not resolve to a location inside the system temp root, and a
deletion only ever happens for a path resolving inside the temp root. -/
theorem claim9_cleanup_only_inside_tmp (realpath : Str → Str) (tmpRoot : Str)
    (sep : Char) (dir : Str) :
    (¬ insideTmpRoot realpath tmpRoot sep dir →
      cleanupTempDir realpath tmpRoot sep dir =
        Except.error "Attempted to clean up a directory outside of the system temp directory") ∧
    (∀ p, cleanupTempDir realpath tmpRoot sep dir = Except.ok p →
      insideTmpRoot realpath tmpRoot sep dir ∧ p = dir) := by
  by_cases hc : ¬ ((realpath tmpRoot ++ [sep]) <+: realpath dir) ∧
      realpath dir ≠ realpath tmpRoot
  · constructor
    · intro _
      rw [cleanupTempDir, if_pos hc]
    · intro p hp
      rw [cleanupTempDir, if_pos hc] at hp
      cases hp
  · have hin : insideTmpRoot realpath tmpRoot sep dir := by
      rcases not_and_or.mp hc with h1 | h2
      · exact Or.inr (not_not.mp h1)
      · exact Or.inl (not_not.mp h2)
    constructor
    · intro h
      exact absurd hin h
    · intro p hp
      rw [cleanupTempDir, if_neg hc] at hp
      cases hp
      exact ⟨hin, rfl⟩

/-- Witness for C9: with the identity realpath, releasing /etc against the
temp root /tmp refuses. -/
theorem claim9_witness :
    ¬ insideTmpRoot (fun s => s) "/tmp".data '/' "/etc".data ∧
    cleanupTempDir (fun s => s) "/tmp".data '/' "/etc".data =
      Except.error "Attempted to clean up a directory outside of the system temp directory" :=
  have hn : ¬ insideTmpRoot (fun s => s) "/tmp".data '/' "/etc".data := by
    simp only [insideTmpRoot]
    decide
  ⟨hn, (claim9_cleanup_only_inside_tmp (fun s => s) "/tmp".data '/' "/etc".data).1 hn⟩

-- ---------------------------------------------------------------------------
-- install.ts / settings-install.ts : unit selection and orchestration
-- ---------------------------------------------------------------------------

/-- A discovered skill (discover.ts); the open metadata bag is not consulted
by the skill orchestrator and is omitted. -/
structure Skill where
  name : Str
  description : Str
  path : Str
deriving DecidableEq, Repr

/-- The three settings installation strategies. -/
inductive SettingsStrategy
  | copy
  | merge
  | replace
deriving DecidableEq, Repr

/-- A discovered settings package (settings-discover.ts); of its metadata
bag the orchestrator reads only `metadata?.strategy`, surfaced here as
`strategyMeta`. -/
structure SettingsPackage where
  name : Str
  description : Str
  path : Str
  strategyMeta : Option SettingsStrategy
deriving DecidableEq, Repr

/-- The quoted unit name as interpolated into the not-found message. -/
def quoteName (n : Str) : Str := '"' :: (n ++ ['"'])

/-- The message of the error thrown by installGitSkill when no skill
matches (JavaScript template literal; an empty subpath string is falsy and
contributes nothing; an empty discovered list is falsy and selects the
no-files-discovered wording). -/
def skillNotFoundMsg (skillName url : Str) (subpath : Option Str) (names : List Str) : Str :=
  "Skill \"".data ++ skillName ++ "\" not found in ".data ++ url ++
    (match subpath with
     | some sp => if sp = [] then [] else '/' :: sp
     | none => []) ++ ". ".data ++
    (match names with
     | [] => "No SKILL.md files discovered.".data
     | _ => "Found: ".data ++ joinWith ", ".data (names.map quoteName))

/-- The corresponding message of installGitSettings. -/
def settingsNotFoundMsg (settingsName url : Str) (subpath : Option Str) (names : List Str) : Str :=
  "Settings \"".data ++ settingsName ++ "\" not found in ".data ++ url ++
    (match subpath with
     | some sp => if sp = [] then [] else '/' :: sp
     | none => []) ++ ". ".data ++
    (match names with
     | [] => "No SETTINGS.md files discovered.".data
     | _ => "Found: ".data ++ joinWith ", ".data (names.map quoteName))

/-- Embedding of the selection step of installGitSkill: exact name match
first; if none and exactly one skill was discovered, that one; otherwise
the not-found error. -/
def selectSkill (skills : List Skill) (skillName url : Str) (subpath : Option Str) :
    Except Str Skill :=
  match skills.find? (fun s => s.name == skillName) with
  | some s => Except.ok s
  | none =>
    match skills with
    | [s] => Except.ok s
    | _ => Except.error (skillNotFoundMsg skillName url subpath (skills.map Skill.name))

/-- Embedding of the selection step of installGitSettings (same logic,
settings wording). -/
def selectSettings (pkgs : List SettingsPackage) (settingsName url : Str)
    (subpath : Option Str) : Except Str SettingsPackage :=
  match pkgs.find? (fun s => s.name == settingsName) with
  | some s => Except.ok s
  | none =>
    match pkgs with
    | [s] => Except.ok s
    | _ => Except.error (settingsNotFoundMsg settingsName url subpath (pkgs.map SettingsPackage.name))

theorem name_infix_joined : ∀ (names : List Str) (n : Str), n ∈ names →
    n <:+: joinWith ", ".data (names.map quoteName)
  | [], n => by intro h; cases h
  | [m], n => by
    intro h
    rcases List.mem_singleton.mp h with rfl
    exact ⟨['"'], ['"'], by simp [joinWith, quoteName]⟩
  | m :: m2 :: rest, n => by
    intro h
    have hunfold : joinWith ", ".data ((m :: m2 :: rest).map quoteName) =
        quoteName m ++ ", ".data ++ joinWith ", ".data ((m2 :: rest).map quoteName) := by
      simp [joinWith]
    rcases List.mem_cons.mp h with rfl | h2
    · rw [hunfold]
      have h1 : n <:+: quoteName n := ⟨['"'], ['"'], by simp [quoteName]⟩
      exact h1.trans ((List.prefix_append (quoteName n) _).trans
        (List.prefix_append _ _)).isInfix
    · have hrec := name_infix_joined (m2 :: rest) n h2
      rw [hunfold]
      exact hrec.trans (List.suffix_append _ _).isInfix

theorem name_infix_skillMsg (skillName url : Str) (subpath : Option Str)
    (names : List Str) (n : Str) (h : n ∈ names) :
    n <:+: skillNotFoundMsg skillName url subpath names := by
  have hjoin := name_infix_joined names n h
  match names, h with
  | m :: rest, h =>
    refine hjoin.trans ?_
    refine (List.suffix_append "Found: ".data _).isInfix.trans ?_
    rw [skillNotFoundMsg.eq_def]
    exact (List.suffix_append _ _).isInfix

theorem name_infix_settingsMsg (settingsName url : Str) (subpath : Option Str)
    (names : List Str) (n : Str) (h : n ∈ names) :
    n <:+: settingsNotFoundMsg settingsName url subpath names := by
  have hjoin := name_infix_joined names n h
  match names, h with
  | m :: rest, h =>
    refine hjoin.trans ?_
    refine (List.suffix_append "Found: ".data _).isInfix.trans ?_
    rw [settingsNotFoundMsg.eq_def]
    exact (List.suffix_append _ _).isInfix

/-- C2: the selection rule shared by installGitSkill and installGitSettings:
a unit with exactly the requested name is selected when one exists;
otherwise a sole discovered unit is selected regardless of its name;
otherwise selection fails with an error whose message carries the name of
every discovered unit. -/
theorem claim2_selection_rule (skills : List Skill) (skillName url : Str)
    (subpath : Option Str) (pkgs : List SettingsPackage) (settingsName url2 : Str)
    (subpath2 : Option Str) :
    (((∃ s ∈ skills, s.name = skillName) →
        ∃ s, selectSkill skills skillName url subpath = Except.ok s ∧
          s ∈ skills ∧ s.name = skillName) ∧
      (∀ s, skills = [s] → selectSkill skills skillName url subpath = Except.ok s) ∧
      ((¬ ∃ s ∈ skills, s.name = skillName) → skills.length ≠ 1 →
        ∃ e, selectSkill skills skillName url subpath = Except.error e ∧
          ∀ s ∈ skills, s.name <:+: e)) ∧
    (((∃ s ∈ pkgs, s.name = settingsName) →
        ∃ s, selectSettings pkgs settingsName url2 subpath2 = Except.ok s ∧
          s ∈ pkgs ∧ s.name = settingsName) ∧
      (∀ s, pkgs = [s] → selectSettings pkgs settingsName url2 subpath2 = Except.ok s) ∧
      ((¬ ∃ s ∈ pkgs, s.name = settingsName) → pkgs.length ≠ 1 →
        ∃ e, selectSettings pkgs settingsName url2 subpath2 = Except.error e ∧
          ∀ s ∈ pkgs, s.name <:+: e)) := by
  refine ⟨⟨?_, ?_, ?_⟩, ⟨?_, ?_, ?_⟩⟩
  · rintro ⟨s0, hs0, hname⟩
    have hsome : (skills.find? (fun s => s.name == skillName)).isSome := by
      rw [List.find?_isSome]
      exact ⟨s0, hs0, by simpa using hname⟩
    rcases Option.isSome_iff_exists.mp hsome with ⟨r, hr⟩
    refine ⟨r, ?_, List.mem_of_find?_eq_some hr, by simpa using List.find?_some hr⟩
    unfold selectSkill
    rw [hr]
  · rintro s rfl
    cases hf : [s].find? (fun x => x.name == skillName) with
    | some r =>
      have hmem := List.mem_of_find?_eq_some hf
      rcases List.mem_singleton.mp hmem with rfl
      unfold selectSkill
      rw [hf]
    | none =>
      unfold selectSkill
      rw [hf]
  · intro hno hlen
    have hnone : skills.find? (fun s => s.name == skillName) = none := by
      rw [List.find?_eq_none]
      intro x hx
      simp only [beq_iff_eq]
      exact fun hh => hno ⟨x, hx, hh⟩
    have hsel : selectSkill skills skillName url subpath =
        Except.error (skillNotFoundMsg skillName url subpath (skills.map Skill.name)) := by
      unfold selectSkill
      rw [hnone]
      cases skills with
      | nil => rfl
      | cons a tail =>
        cases tail with
        | nil => exact absurd rfl hlen
        | cons b t2 => rfl
    refine ⟨_, hsel, ?_⟩
    intro s hs
    exact name_infix_skillMsg skillName url subpath (skills.map Skill.name) s.name
      (List.mem_map.mpr ⟨s, hs, rfl⟩)
  · rintro ⟨s0, hs0, hname⟩
    have hsome : (pkgs.find? (fun s => s.name == settingsName)).isSome := by
      rw [List.find?_isSome]
      exact ⟨s0, hs0, by simpa using hname⟩
    rcases Option.isSome_iff_exists.mp hsome with ⟨r, hr⟩
    refine ⟨r, ?_, List.mem_of_find?_eq_some hr, by simpa using List.find?_some hr⟩
    unfold selectSettings
    rw [hr]
  · rintro s rfl
    cases hf : [s].find? (fun x => x.name == settingsName) with
    | some r =>
      have hmem := List.mem_of_find?_eq_some hf
      rcases List.mem_singleton.mp hmem with rfl
      unfold selectSettings
      rw [hf]
    | none =>
      unfold selectSettings
      rw [hf]
  · intro hno hlen
    have hnone : pkgs.find? (fun s => s.name == settingsName) = none := by
      rw [List.find?_eq_none]
      intro x hx
      simp only [beq_iff_eq]
      exact fun hh => hno ⟨x, hx, hh⟩
    have hsel : selectSettings pkgs settingsName url2 subpath2 =
        Except.error (settingsNotFoundMsg settingsName url2 subpath2
          (pkgs.map SettingsPackage.name)) := by
      unfold selectSettings
      rw [hnone]
      cases pkgs with
      | nil => rfl
      | cons a tail =>
        cases tail with
        | nil => exact absurd rfl hlen
        | cons b t2 => rfl
    refine ⟨_, hsel, ?_⟩
    intro s hs
    exact name_infix_settingsMsg settingsName url2 subpath2 (pkgs.map SettingsPackage.name)
      s.name (List.mem_map.mpr ⟨s, hs, rfl⟩)

/-- Sample discovered skill for the C2 witness. -/
def demoSkill : Skill :=
  { name := "alpha".data, description := "d".data, path := "/p".data }

/-- Sample discovered settings package for the C2 witness. -/
def demoPkg : SettingsPackage :=
  { name := "beta".data, description := "d".data, path := "/q".data, strategyMeta := none }

/-- Witness for C2: a sole discovered unit is selected even under a
non-matching requested name, for both unit kinds. -/
theorem claim2_witness :
    selectSkill [demoSkill] "other".data "u".data none = Except.ok demoSkill ∧
    selectSettings [demoPkg] "other".data "u".data none = Except.ok demoPkg :=
  ⟨(claim2_selection_rule [demoSkill] "other".data "u".data none [demoPkg]
      "other".data "u".data none).1.2.1 demoSkill rfl,
    (claim2_selection_rule [demoSkill] "other".data "u".data none [demoPkg]
      "other".data "u".data none).2.2.1 demoPkg rfl⟩

/-- The result record of installGitSkill (types/index.ts InstallResult). -/
structure InstallResult where
  success : Bool
  skill : Str
  paths : List Str
  error : Option Str := none
deriving DecidableEq, Repr

/-- The result record of installGitSettings. -/
structure SettingsInstallResult where
  success : Bool
  settings : Str
  paths : List Str
  strategy : SettingsStrategy
  error : Option Str := none
deriving DecidableEq, Repr

/-- The try-block body of installGitSkill after the clone succeeded:
discover the skills in the temp tree, select one, copy it to every install
directory.  The awaited collaborator outcomes are Except-valued inputs. -/
def installGitSkillBody (discover : Str → Except Str (List Skill))
    (copyToAll : Skill → Except Str (List Str))
    (source : SkillSource) (skillName : Str) (tempDir : Str) : Except Str (List Str) := do
  let skills ← discover tempDir
  let skill ← selectSkill skills skillName source.url source.subpath
  copyToAll skill

/-- Embedding of `installGitSkill` (install.ts): run the body under the
try/catch/finally — a thrown error anywhere after (or during) the clone is
converted into a failed result with the error message and empty paths; the
function never rethrows.  The second component collects the temp
directories released by the finally block (`tempDir` is only assigned once
the clone succeeded, and the finally block's own cleanup failure is
swallowed by `.catch`). -/
def installGitSkill (clone : Except Str Str)
    (discover : Str → Except Str (List Skill))
    (copyToAll : Skill → Except Str (List Str))
    (source : SkillSource) (skillName : Str) : InstallResult × List Str :=
  match clone with
  | Except.error e =>
    ({ success := false, skill := skillName, paths := [], error := some e }, [])
  | Except.ok tempDir =>
    (match installGitSkillBody discover copyToAll source skillName tempDir with
     | Except.ok paths =>
       { success := true, skill := skillName, paths := paths, error := none }
     | Except.error e =>
       { success := false, skill := skillName, paths := [], error := some e },
     [tempDir])

/-- The try-block body of installGitSettings after the clone succeeded:
discover, select, resolve the effective strategy (CLI option, else the
package's frontmatter strategy, else copy), apply. -/
def installGitSettingsBody (discover : Str → Except Str (List SettingsPackage))
    (applySettings : Str → SettingsStrategy → Except Str (List Str))
    (source : SkillSource) (settingsName : Str) (optStrategy : Option SettingsStrategy)
    (tempDir : Str) : Except Str (SettingsStrategy × List Str) := do
  let packages ← discover tempDir
  let pkg ← selectSettings packages settingsName source.url source.subpath
  let effectiveStrategy := optStrategy.getD (pkg.strategyMeta.getD SettingsStrategy.copy)
  let paths ← applySettings pkg.path effectiveStrategy
  pure (effectiveStrategy, paths)

/-- Embedding of `installGitSettings` (settings-install.ts): same
try/catch/finally shape as installGitSkill; a failed result reports the
initial strategy (the CLI option or copy), a successful one the effective
strategy. -/
def installGitSettings (clone : Except Str Str)
    (discover : Str → Except Str (List SettingsPackage))
    (applySettings : Str → SettingsStrategy → Except Str (List Str))
    (source : SkillSource) (settingsName : Str) (optStrategy : Option SettingsStrategy) :
    SettingsInstallResult × List Str :=
  match clone with
  | Except.error e =>
    ({ success := false, settings := settingsName, paths := [],
       strategy := optStrategy.getD SettingsStrategy.copy, error := some e }, [])
  | Except.ok tempDir =>
    (match installGitSettingsBody discover applySettings source settingsName optStrategy tempDir with
     | Except.ok (eff, paths) =>
       { success := true, settings := settingsName, paths := paths,
         strategy := eff, error := none }
     | Except.error e =>
       { success := false, settings := settingsName, paths := [],
         strategy := optStrategy.getD SettingsStrategy.copy, error := some e },
     [tempDir])

/-- C1: for both install operations, a failure of any step — clone
(retrieval), discovery, selection, or apply (all the fallible steps these
operations run; parsing happens in the caller) — is caught and returned as
a failed result carrying the error message, never rethrown (the functions
are total, so nothing propagates); and whenever the clone created a temp
directory, exactly that directory is released by the final step, success or
failure. -/
theorem claim1_failures_caught_and_cleaned (clone : Except Str Str)
    (discover : Str → Except Str (List Skill)) (copyToAll : Skill → Except Str (List Str))
    (source : SkillSource) (skillName : Str)
    (clone2 : Except Str Str) (discover2 : Str → Except Str (List SettingsPackage))
    (applySettings : Str → SettingsStrategy → Except Str (List Str))
    (source2 : SkillSource) (settingsName : Str) (optStrategy : Option SettingsStrategy) :
    ((∀ e, clone = Except.error e →
        installGitSkill clone discover copyToAll source skillName =
          ({ success := false, skill := skillName, paths := [], error := some e }, [])) ∧
      (∀ t, clone = Except.ok t →
        (installGitSkill clone discover copyToAll source skillName).2 = [t] ∧
        (∀ e, installGitSkillBody discover copyToAll source skillName t = Except.error e →
          (installGitSkill clone discover copyToAll source skillName).1 =
            { success := false, skill := skillName, paths := [], error := some e }) ∧
        (∀ ps, installGitSkillBody discover copyToAll source skillName t = Except.ok ps →
          (installGitSkill clone discover copyToAll source skillName).1 =
            { success := true, skill := skillName, paths := ps, error := none }))) ∧
    ((∀ e, clone2 = Except.error e →
        installGitSettings clone2 discover2 applySettings source2 settingsName optStrategy =
          ({ success := false, settings := settingsName, paths := [],
             strategy := optStrategy.getD SettingsStrategy.copy, error := some e }, [])) ∧
      (∀ t, clone2 = Except.ok t →
        (installGitSettings clone2 discover2 applySettings source2 settingsName optStrategy).2 = [t] ∧
        (∀ e, installGitSettingsBody discover2 applySettings source2 settingsName optStrategy t =
            Except.error e →
          (installGitSettings clone2 discover2 applySettings source2 settingsName optStrategy).1 =
            { success := false, settings := settingsName, paths := [],
              strategy := optStrategy.getD SettingsStrategy.copy, error := some e }) ∧
        (∀ effps, installGitSettingsBody discover2 applySettings source2 settingsName optStrategy t =
            Except.ok effps →
          (installGitSettings clone2 discover2 applySettings source2 settingsName optStrategy).1 =
            { success := true, settings := settingsName, paths := effps.2,
              strategy := effps.1, error := none }))) := by
  constructor
  · constructor
    · rintro e rfl
      rfl
    · rintro t rfl
      refine ⟨rfl, ?_, ?_⟩
      · intro e he
        simp only [installGitSkill, he]
      · intro ps hps
        simp only [installGitSkill, hps]

  · constructor
    · rintro e rfl
      rfl
    · rintro t rfl
      refine ⟨rfl, ?_, ?_⟩
      · intro e he
        simp only [installGitSettings, he]
      · intro effps hps
        simp only [installGitSettings, hps]

/-- Witness for C1 at concrete collaborator outcomes: a failed clone on the
skill side, and a successful clone with a failing discovery on the settings
side. -/
theorem claim1_witness :
    installGitSkill (Except.error "clone failed".data) (fun _ => Except.ok [])
        (fun _ => Except.ok []) { type := SourceType.github, url := "u".data } "n".data =
      ({ success := false, skill := "n".data, paths := [],
         error := some "clone failed".data }, []) ∧
    (installGitSettings (Except.ok "/tmp/k".data) (fun _ => Except.error "boom".data)
        (fun _ _ => Except.ok []) { type := SourceType.github, url := "u".data }
        "n".data none).2 = ["/tmp/k".data] :=
  ⟨(claim1_failures_caught_and_cleaned (Except.error "clone failed".data)
      (fun _ => Except.ok []) (fun _ => Except.ok [])
      { type := SourceType.github, url := "u".data } "n".data
      (Except.ok "/tmp/k".data) (fun _ => Except.error "boom".data)
      (fun _ _ => Except.ok []) { type := SourceType.github, url := "u".data }
      "n".data none).1.1 "clone failed".data rfl,
    ((claim1_failures_caught_and_cleaned (Except.error "clone failed".data)
      (fun _ => Except.ok []) (fun _ => Except.ok [])
      { type := SourceType.github, url := "u".data } "n".data
      (Except.ok "/tmp/k".data) (fun _ => Except.error "boom".data)
      (fun _ _ => Except.ok []) { type := SourceType.github, url := "u".data }
      "n".data none).2.2 "/tmp/k".data rfl).1⟩

/-- C10: whenever either install operation returns a failed result, the
result's paths list is empty — partially written targets are never
reported. -/
theorem claim10_failure_reports_no_paths (clone : Except Str Str)
    (discover : Str → Except Str (List Skill)) (copyToAll : Skill → Except Str (List Str))
    (source : SkillSource) (skillName : Str)
    (clone2 : Except Str Str) (discover2 : Str → Except Str (List SettingsPackage))
    (applySettings : Str → SettingsStrategy → Except Str (List Str))
    (source2 : SkillSource) (settingsName : Str) (optStrategy : Option SettingsStrategy) :
    ((installGitSkill clone discover copyToAll source skillName).1.success = false →
      (installGitSkill clone discover copyToAll source skillName).1.paths = []) ∧
    ((installGitSettings clone2 discover2 applySettings source2 settingsName optStrategy).1.success
        = false →
      (installGitSettings clone2 discover2 applySettings source2 settingsName
        optStrategy).1.paths = []) := by
  constructor
  · intro hf
    cases clone with
    | error e => rfl
    | ok t =>
      cases hb : installGitSkillBody discover copyToAll source skillName t with
      | ok ps =>
        exfalso
        rw [show (installGitSkill (Except.ok t) discover copyToAll source skillName).1.success
            = true by simp only [installGitSkill, hb]] at hf
        cases hf
      | error e => simp only [installGitSkill, hb]
  · intro hf
    cases clone2 with
    | error e => rfl
    | ok t =>
      cases hb : installGitSettingsBody discover2 applySettings source2 settingsName optStrategy t with
      | ok effps =>
        exfalso
        rw [show (installGitSettings (Except.ok t) discover2 applySettings source2 settingsName
            optStrategy).1.success = true by simp only [installGitSettings, hb]] at hf
        cases hf
      | error e => simp only [installGitSettings, hb]

/-- Witness for C10: a clone failure yields a failed result with empty
paths in both operations. -/
theorem claim10_witness :
    ((installGitSkill (Except.error "x".data) (fun _ => Except.ok [])
        (fun _ => Except.ok ["/written".data]) { type := SourceType.github, url := "u".data }
        "n".data).1.success = false ∧
      (installGitSkill (Except.error "x".data) (fun _ => Except.ok [])
        (fun _ => Except.ok ["/written".data]) { type := SourceType.github, url := "u".data }
        "n".data).1.paths = []) ∧
    ((installGitSettings (Except.error "x".data) (fun _ => Except.ok [])
        (fun _ _ => Except.ok ["/written".data]) { type := SourceType.github, url := "u".data }
        "n".data none).1.success = false ∧
      (installGitSettings (Except.error "x".data) (fun _ => Except.ok [])
        (fun _ _ => Except.ok ["/written".data]) { type := SourceType.github, url := "u".data }
        "n".data none).1.paths = []) :=
  ⟨⟨rfl, (claim10_failure_reports_no_paths (Except.error "x".data) (fun _ => Except.ok [])
      (fun _ => Except.ok ["/written".data]) { type := SourceType.github, url := "u".data }
      "n".data (Except.error "x".data) (fun _ => Except.ok [])
      (fun _ _ => Except.ok ["/written".data]) { type := SourceType.github, url := "u".data }
      "n".data none).1 rfl⟩,
   ⟨rfl, (claim10_failure_reports_no_paths (Except.error "x".data) (fun _ => Except.ok [])
      (fun _ => Except.ok ["/written".data]) { type := SourceType.github, url := "u".data }
      "n".data (Except.error "x".data) (fun _ => Except.ok [])
      (fun _ _ => Except.ok ["/written".data]) { type := SourceType.github, url := "u".data }
      "n".data none).2 rfl⟩⟩

end Konstruct
